import Mathlib

/-!
Shallow embedding of `custom_components/atlantic_heat_pump_explorer/coordinator.py`.

Modelling conventions:
* Python `datetime.now()` is modelled by an explicit `now : Nat` parameter
  (whole seconds); `timedelta.seconds` on a non-negative difference is the
  seconds component, i.e. `(now - t) % 86400`.
* Python dicts are insertion-ordered association lists; assignment `d[k] = v`
  updates the entry in place when the key is present and appends otherwise
  (`updDict`).
* Exceptions raised by the external client, or while reading a reflected
  attribute, are modelled with `Except`.
* `LOGGER.info("STATE CHANGE", ...)` lines are returned explicitly as values
  of type `Notable` so that properties about them can be stated.
-/

namespace AtlanticExplorer

/-- Runtime values carried by device states (Python `Any`). -/
inductive PyVal where
  | vNone
  | vBool (b : Bool)
  | vInt (n : Int)
  | vStr (s : String)
  | vObj (r : String)
deriving DecidableEq

/-- Python `type(value).__name__` for the modelled values. -/
def PyVal.typeName : PyVal → String
  | .vNone => "NoneType"
  | .vBool _ => "bool"
  | .vInt _ => "int"
  | .vStr _ => "str"
  | .vObj _ => "object"

/-- Lookup in an association-list dict (`d.get(k)` / `d[k]`). -/
def getVal : List (String × α) → String → Option α
  | [], _ => none
  | p :: d, k => if p.1 = k then some p.2 else getVal d k

/-- Membership test `k in d`. -/
def containsKey : List (String × α) → String → Bool
  | [], _ => false
  | p :: d, k => if p.1 = k then true else containsKey d k

/-- Python dict assignment `d[k] = v`: update the entry in place when the key
is present (keeping its position), append otherwise. -/
def updDict : List (String × α) → String → α → List (String × α)
  | [], k, v => [(k, v)]
  | p :: d, k, v => if p.1 = k then (k, v) :: d else p :: updDict d k v

/-- The keys of an association-list dict, in order. -/
def keysOf (d : List (String × α)) : List String := d.map (·.1)

/-- Element of a reflected list/tuple or dict value as seen by
`_safe_serialize`: either a JSON primitive (kept as is, modelled by its printed
form) or any other value (coerced with `str`). -/
inductive ReflElem where
  | prim (s : String)
  | other (strRepr : String)
deriving DecidableEq

/-- Value successfully read from an attribute during the reflection sweep. -/
inductive ReflVal where
  | prim (s : String)
  | coll (elems : List ReflElem)
  | dictv (entries : List (String × ReflElem))
  | call
  | obj (strRepr : String)
deriving DecidableEq

/-- Serialized value stored by `_extract_all_attributes`. -/
inductive SerVal where
  | prim (s : String)
  | listv (l : List String)
  | dictv (l : List (String × String))
  | strv (s : String)
  | err (msg : String)
deriving DecidableEq

/-- Python `_safe_serialize`. -/
def safeSerialize : ReflElem → String
  | .prim s => s
  | .other r => r

/-- One reflected attribute: its name together with either the value read or
the message of the exception raised while reading/serializing it. -/
abbrev ReflField := String × Except String ReflVal

/-- Python `attr_name.startswith('_')`: a one-character check on the first
character of the name. -/
def startsWithUnderscore (s : String) : Bool :=
  match s.data with
  | [] => false
  | c :: _ => c = '_'

/-- The entries contributed to the extraction result by one attribute. -/
def reflEntry (f : ReflField) : List (String × SerVal) :=
  if startsWithUnderscore f.1 then []
  else
    match f.2 with
    | .error e => [(f.1, .err ("<error: " ++ e ++ ">"))]
    | .ok .call => []
    | .ok (.prim s) => [(f.1, .prim s)]
    | .ok (.coll es) => [(f.1, .listv (es.map safeSerialize))]
    | .ok (.dictv es) => [(f.1, .dictv (es.map (fun p => (p.1, safeSerialize p.2))))]
    | .ok (.obj r) => [(f.1, .strv r)]

/-- Python `_extract_all_attributes`: walk the attributes in order, skipping
private names and callables, serializing readable values and replacing any
per-field exception with an error-marker string for that field only. -/
def extractAllAttributes (fields : List ReflField) : List (String × SerVal) :=
  fields.foldl (fun result f => result ++ reflEntry f) []

/-- Entry of the `states` dict of a `DeviceData`. -/
structure StoredState where
  value : PyVal
  type : String
  raw : String
deriving DecidableEq

/-- Entry of the `attributes` dict of a `DeviceData`. -/
structure AttrEntry where
  value : PyVal
  type : String
deriving DecidableEq

/-- One command parameter descriptor. -/
structure ParamInfo where
  name : String
  type : String
deriving DecidableEq

/-- One command descriptor (`cmd_info`). -/
structure CmdInfo where
  name : String
  parameters : List ParamInfo
deriving DecidableEq

/-- One state-definition descriptor. -/
structure StateDefInfo where
  name : String
  type : String
deriving DecidableEq

/-- Python dataclass `DeviceData`. -/
structure DeviceData where
  device_url : String
  label : String
  widget : String
  ui_class : String
  controllable_name : String
  protocol : String
  device_type : String
  available : Bool
  states : List (String × StoredState)
  attributes : List (String × AttrEntry)
  commands : List CmdInfo
  state_definitions : List StateDefInfo
  raw_data : List (String × SerVal)
  last_updated : Nat
deriving DecidableEq

/-- One entry of the rolling event log. -/
structure LogEntry where
  timestamp : Nat
  event_number : Nat
  name : String
  raw : List (String × SerVal)
deriving DecidableEq

/-- Python dataclass `ExplorerData`. -/
structure ExplorerData where
  devices : List (String × DeviceData)
  gateways : List (List (String × SerVal))
  events_log : List LogEntry
  raw_api_responses : List (List (String × SerVal))
  last_full_refresh : Option Nat
deriving DecidableEq

/-- A device state as delivered by the client, used both inside `Setup`
devices and in state-changed event payloads (`raw` is Python `str(state)`). -/
structure SrcState where
  name : String
  value : PyVal
  raw : String
deriving DecidableEq

/-- A device attribute as delivered by the client. -/
structure SrcAttr where
  name : String
  value : PyVal
deriving DecidableEq

/-- A command parameter of the device definition; `none` models an absent
attribute (`getattr(param, ..., 'N/A')`). -/
structure SrcParam where
  name : Option String
  type : Option String
deriving DecidableEq

/-- A command of the device definition (`strRepr` is Python `str(cmd)`). -/
structure SrcCmd where
  command_name : Option String
  strRepr : String
  parameters : Option (List SrcParam)
deriving DecidableEq

/-- A state definition of the device definition. -/
structure SrcStateDef where
  qualified_name : Option String
  strRepr : String
  type : Option String
deriving DecidableEq

/-- The `definition` object of a client device. -/
structure SrcDefinition where
  commands : Option (List SrcCmd)
  states : Option (List SrcStateDef)
deriving DecidableEq

/-- A client `Device`; enum-valued fields (`widget`, `ui_class`, `protocol`,
`type`) are modelled already stringified, optional ones as `Option`. -/
structure SrcDevice where
  device_url : String
  label : String
  widget : String
  ui_class : String
  controllable_name : Option String
  protocol : Option String
  device_type : Option String
  available : Bool
  states : Option (List SrcState)
  attributes : Option (List SrcAttr)
  definition : Option SrcDefinition
  refl_fields : List ReflField

/-- A client `Gateway`, only ever consumed through the reflection sweep. -/
structure SrcGateway where
  refl_fields : List ReflField

/-- A client `Setup` graph. -/
structure SrcSetup where
  gateways : List SrcGateway
  devices : List SrcDevice

/-- Python `_process_device` (the `datetime.now()` call is the `now`
parameter). -/
def processDevice (now : Nat) (device : SrcDevice) : DeviceData :=
  let states := (device.states.getD []).foldl
    (fun acc s => updDict acc s.name ⟨s.value, s.value.typeName, s.raw⟩) []
  let attrs := (device.attributes.getD []).foldl
    (fun acc a => updDict acc a.name ⟨a.value, a.value.typeName⟩) []
  let commands := match device.definition with
    | none => []
    | some defn => (defn.commands.getD []).map (fun cmd =>
        { name := cmd.command_name.getD cmd.strRepr
          parameters := (cmd.parameters.getD []).map (fun p =>
            ⟨p.name.getD "N/A", p.type.getD "N/A"⟩) })
  let stateDefs := match device.definition with
    | none => []
    | some defn => (defn.states.getD []).map (fun sd =>
        ⟨sd.qualified_name.getD sd.strRepr, sd.type.getD "N/A"⟩)
  { device_url := device.device_url
    label := device.label
    widget := device.widget
    ui_class := device.ui_class
    controllable_name := device.controllable_name.getD ""
    protocol := device.protocol.getD ""
    device_type := device.device_type.getD ""
    available := device.available
    states := states
    attributes := attrs
    commands := commands
    state_definitions := stateDefs
    raw_data := extractAllAttributes device.refl_fields
    last_updated := now }

/-- Python `_process_setup`: gateway records are appended to the existing
list, device entries are keyed insert-or-replace, then the full-refresh
timestamp is set. -/
def processSetup (now : Nat) (setup : SrcSetup) (data : ExplorerData) : ExplorerData :=
  let gws := setup.gateways.foldl
    (fun acc gw => acc ++ [extractAllAttributes gw.refl_fields]) data.gateways
  let devs := setup.devices.foldl
    (fun acc d => updDict acc d.device_url (processDevice now d)) data.devices
  { data with gateways := gws, devices := devs, last_full_refresh := some now }

/-- The event-name enum values this system dispatches on. -/
inductive EventName where
  | deviceStateChanged
  | deviceAvailable
  | deviceUnavailable
  | deviceCreated
  | deviceUpdated
  | otherEvent (s : String)
deriving DecidableEq

/-- Python `str(event.name)`. -/
def EventName.str : EventName → String
  | .deviceStateChanged => "EventName.DEVICE_STATE_CHANGED"
  | .deviceAvailable => "EventName.DEVICE_AVAILABLE"
  | .deviceUnavailable => "EventName.DEVICE_UNAVAILABLE"
  | .deviceCreated => "EventName.DEVICE_CREATED"
  | .deviceUpdated => "EventName.DEVICE_UPDATED"
  | .otherEvent s => s

/-- One (device identifier, state list) pair of a state-changed payload. -/
structure DeviceStatesPair where
  device_url : String
  states : List SrcState
deriving DecidableEq

/-- A client `Event`; `device_url`/`device_states` are `none` when the
attribute is absent or Python-falsy at the corresponding `getattr`/`hasattr`
check site. -/
structure Event where
  name : EventName
  device_url : Option String
  device_states : Option (List DeviceStatesPair)
  refl_fields : List ReflField

/-- One `LOGGER.info("STATE CHANGE: ...")` line: device label, state name,
old value and new value.  The old value is `PyVal.vNone` when the state was
absent, matching Python's `dict.get` default of `None`. -/
structure Notable where
  label : String
  state_name : String
  old_value : PyVal
  new_value : PyVal
deriving DecidableEq

/-- The inner per-state loop of `_handle_state_change` for one device entry. -/
def applyStates (now : Nat) (dd : DeviceData) : List SrcState → DeviceData × List Notable
  | [] => (dd, [])
  | s :: rest =>
    let old := match getVal dd.states s.name with
      | some st => st.value
      | none => PyVal.vNone
    let dd' := { dd with
      states := updDict dd.states s.name ⟨s.value, s.value.typeName, s.raw⟩
      last_updated := now }
    let r := applyStates now dd' rest
    if old ≠ s.value then (r.1, ⟨dd.label, s.name, old, s.value⟩ :: r.2) else r

/-- The loop of `_handle_state_change` over the payload pairs, skipping pairs
whose device identifier is not a key of the snapshot. -/
def handlePairs (now : Nat) (data : ExplorerData) :
    List DeviceStatesPair → ExplorerData × List Notable
  | [] => (data, [])
  | p :: rest =>
    match getVal data.devices p.device_url with
    | none => handlePairs now data rest
    | some dd =>
      let r := applyStates now dd p.states
      let data' := { data with devices := updDict data.devices p.device_url r.1 }
      let r2 := handlePairs now data' rest
      (r2.1, r.2 ++ r2.2)

/-- Python `_handle_state_change` (the guard `not hasattr(...) or not
event.device_states` returns early on an absent or empty payload). -/
def handleStateChange (now : Nat) (event : Event) (data : ExplorerData) :
    ExplorerData × List Notable :=
  match event.device_states with
  | none => (data, [])
  | some pairs => if pairs = [] then (data, []) else handlePairs now data pairs

/-- Python `_handle_availability_change` (`if device_url and device_url in
self._data.devices`: an absent attribute or empty string is falsy). -/
def handleAvailabilityChange (event : Event) (avail : Bool) (data : ExplorerData) :
    ExplorerData :=
  match event.device_url with
  | none => data
  | some url =>
    if url = "" then data
    else
      match getVal data.devices url with
      | none => data
      | some dd =>
        { data with devices := updDict data.devices url { dd with available := avail } }

/-- The mutable coordinator state: the snapshot plus `_event_count`. -/
structure CoordState where
  data : ExplorerData
  event_count : Nat
deriving DecidableEq

/-- The log entry built by `_process_event` for one event. -/
def mkLogEntry (now : Nat) (n : Nat) (event : Event) : LogEntry :=
  { timestamp := now
    event_number := n
    name := event.name.str
    raw := extractAllAttributes event.refl_fields }

/-- The 1000-entry cap: `events_log[-1000:]` when the length exceeds 1000. -/
def capLog (l : List LogEntry) : List LogEntry :=
  if l.length > 1000 then l.drop (l.length - 1000) else l

/-- Python `_process_event`: bump the counter, append the log entry, cap the
log, then dispatch on the event name.  Also returns the notable state-change
lines emitted. -/
def processEvent (now : Nat) (st : CoordState) (event : Event) :
    CoordState × List Notable :=
  let cnt := st.event_count + 1
  let log := capLog (st.data.events_log ++ [mkLogEntry now cnt event])
  let data := { st.data with events_log := log }
  match event.name with
  | .deviceStateChanged =>
    let r := handleStateChange now event data
    (⟨r.1, cnt⟩, r.2)
  | .deviceAvailable => (⟨handleAvailabilityChange event true data, cnt⟩, [])
  | .deviceUnavailable => (⟨handleAvailabilityChange event false data, cnt⟩, [])
  | _ => (⟨data, cnt⟩, [])

/-- Process a list of events one at a time, each with its own clock reading. -/
def runEvents (st : CoordState) : List (Nat × Event) → CoordState
  | [] => st
  | (t, e) :: rest => runEvents (processEvent t st e).1 rest

/-- The log entries generated for a list of timed events, starting after `c`
previously processed events. -/
def entriesFor (c : Nat) : List (Nat × Event) → List LogEntry
  | [] => []
  | (t, e) :: rest => mkLogEntry t (c + 1) e :: entriesFor (c + 1) rest

/-- A fresh `ExplorerData()`. -/
def emptyExplorerData : ExplorerData :=
  { devices := [], gateways := [], events_log := [], raw_api_responses := []
    last_full_refresh := none }

/-- Coordinator construction: fresh snapshot, zero event counter, then the
initial `_process_setup`. -/
def initCoord (now : Nat) (setup : SrcSetup) : CoordState :=
  { data := processSetup now setup emptyExplorerData, event_count := 0 }

/-- The full-resync condition of `_async_update_data`:
`(datetime.now() - last_full_refresh).seconds > 300`.  Note that
`timedelta.seconds` is the seconds component of the difference, i.e. the total
elapsed seconds modulo 86400 for a clock that moved forward. -/
def needsFullRefresh (now : Nat) (last : Option Nat) : Bool :=
  match last with
  | none => true
  | some t => (now - t) % 86400 > 300

/-- One fetched event, or an exception raised while processing an event. -/
inductive FetchedEvent where
  | okEv (t : Nat) (e : Event)
  | raises (msg : String)

/-- Apply `_process_event` to each fetched event in order; the in-place
mutations made before an exception persist, so the state reached so far is
returned alongside the error. -/
def processEventsAcc (st : CoordState) : List FetchedEvent → CoordState × Option String
  | [] => (st, none)
  | .okEv t e :: rest => processEventsAcc (processEvent t st e).1 rest
  | .raises m :: _ => (st, some m)

/-- The single failure signal raised by the coordinator (`UpdateFailed`). -/
inductive UpdateError where
  | updateFailed (msg : String)
deriving DecidableEq

/-- Python `_async_update_data`: the outcomes of the two awaited client calls
are inputs (`fetch` for `fetch_events`, `setupFetch` for `get_setup`).
Returns the coordinator state after the cycle together with either the
snapshot or the generic `UpdateFailed` signal wrapping the message of whatever
exception occurred. -/
def asyncUpdateData (now : Nat) (st : CoordState)
    (fetch : Except String (List FetchedEvent))
    (setupFetch : Except String SrcSetup) :
    CoordState × Except UpdateError ExplorerData :=
  match fetch with
  | .error m => (st, .error (.updateFailed ("Error communicating with API: " ++ m)))
  | .ok evs =>
    match processEventsAcc st evs with
    | (st', some m) =>
      (st', .error (.updateFailed ("Error communicating with API: " ++ m)))
    | (st', none) =>
      if needsFullRefresh now st'.data.last_full_refresh then
        match setupFetch with
        | .error m =>
          (st', .error (.updateFailed ("Error communicating with API: " ++ m)))
        | .ok s =>
          let st2 : CoordState := { st' with data := processSetup now s st'.data }
          (st2, .ok st2.data)
      else (st', .ok st'.data)

/-! Basic lemmas about the association-list dict operations. -/

theorem containsKey_eq_false_iff (d : List (String × α)) (k : String) :
    containsKey d k = false ↔ k ∉ keysOf d := by
  induction d with
  | nil => simp [containsKey, keysOf]
  | cons p d ih =>
    by_cases hp : p.1 = k
    · simp [containsKey, keysOf, hp]
    · simp only [containsKey, hp, if_false, keysOf, List.map_cons, List.mem_cons,
        not_or, ih]
      exact (and_iff_right (Ne.symm hp)).symm

theorem containsKey_eq_true_iff (d : List (String × α)) (k : String) :
    containsKey d k = true ↔ k ∈ keysOf d := by
  rcases h : containsKey d k with _ | _
  · simpa [h] using (containsKey_eq_false_iff d k).mp h
  · simp only [true_iff]
    by_contra hm
    have := (containsKey_eq_false_iff d k).mpr hm
    rw [h] at this
    exact Bool.noConfusion this

theorem getVal_isSome_of_containsKey {d : List (String × α)} {k : String}
    (h : containsKey d k = true) : ∃ v, getVal d k = some v := by
  induction d with
  | nil => simp [containsKey] at h
  | cons p d ih =>
    by_cases hp : p.1 = k
    · exact ⟨p.2, by simp [getVal, hp]⟩
    · simp only [containsKey, hp, if_false] at h
      simpa [getVal, hp] using ih h

theorem containsKey_of_getVal_some {d : List (String × α)} {k : String} {v : α}
    (h : getVal d k = some v) : containsKey d k = true := by
  induction d with
  | nil => simp [getVal] at h
  | cons p d ih =>
    by_cases hp : p.1 = k
    · simp [containsKey, hp]
    · simp only [getVal, hp, if_false] at h
      simp [containsKey, hp, ih h]

theorem getVal_updDict_self (d : List (String × α)) (k : String) (v : α) :
    getVal (updDict d k v) k = some v := by
  induction d with
  | nil => simp [updDict, getVal]
  | cons p d ih =>
    by_cases hp : p.1 = k
    · simp [updDict, hp, getVal]
    · simp [updDict, hp, getVal, ih]

theorem getVal_updDict_ne (d : List (String × α)) (k k' : String) (v : α)
    (h : k' ≠ k) : getVal (updDict d k v) k' = getVal d k' := by
  induction d with
  | nil => simp [updDict, getVal, Ne.symm h]
  | cons p d ih =>
    by_cases hp : p.1 = k
    · simp [updDict, hp, getVal, Ne.symm h, hp ▸ Ne.symm h]
    · simp [updDict, hp, getVal, ih]

theorem keysOf_updDict (d : List (String × α)) (k : String) (v : α) :
    keysOf (updDict d k v) =
      if containsKey d k then keysOf d else keysOf d ++ [k] := by
  induction d with
  | nil => simp [updDict, containsKey, keysOf]
  | cons p d ih =>
    simp only [keysOf] at ih
    by_cases hp : p.1 = k
    · simp [updDict, containsKey, keysOf, hp]
    · simp only [updDict, hp, if_false, containsKey, keysOf, List.map_cons, ih]
      by_cases hc : containsKey d k <;> simp [hc]

theorem keysOf_updDict_of_containsKey (d : List (String × α)) (k : String) (v : α)
    (h : containsKey d k = true) : keysOf (updDict d k v) = keysOf d := by
  simp [keysOf_updDict, h]

theorem containsKey_updDict_of (d : List (String × α)) (k k' : String) (v : α)
    (h : containsKey d k' = true) : containsKey (updDict d k v) k' = true := by
  rw [containsKey_eq_true_iff] at h ⊢
  rw [keysOf_updDict]
  by_cases hc : containsKey d k <;> simp [hc, h]

theorem nodup_keysOf_updDict (d : List (String × α)) (k : String) (v : α)
    (h : (keysOf d).Nodup) : (keysOf (updDict d k v)).Nodup := by
  rw [keysOf_updDict]
  by_cases hc : containsKey d k
  · simpa [hc]
  · simp only [hc, Bool.false_eq_true, if_false]
    have hk : k ∉ keysOf d := (containsKey_eq_false_iff d k).mp (by simpa using hc)
    simp [List.nodup_append, h, hk]

/-! Generic lemmas about left folds of keyed inserts, used for the device map
built by `_process_setup` and the states dict built by the state handlers. -/

/-- The last element of `xs` whose key is `u` (later entries win). -/
def lastWith (key : α → String) : List α → String → Option α
  | [], _ => none
  | x :: xs, u =>
    match lastWith key xs u with
    | some y => some y
    | none => if key x = u then some x else none

theorem lastWith_key {key : α → String} {xs : List α} {u : String} {x : α}
    (h : lastWith key xs u = some x) : key x = u ∧ x ∈ xs := by
  induction xs with
  | nil => simp [lastWith] at h
  | cons y ys ih =>
    rw [lastWith] at h
    rcases hy : lastWith key ys u with _ | z
    · rw [hy] at h
      by_cases hk : key y = u
      · simp only [hk, if_true, Option.some.injEq] at h
        subst h
        exact ⟨hk, List.mem_cons_self y ys⟩
      · simp [hk] at h
    · rw [hy] at h
      simp only [Option.some.injEq] at h
      subst h
      have := ih hy
      exact ⟨this.1, List.mem_cons_of_mem y this.2⟩

theorem lastWith_isSome_of_mem (key : α → String) {xs : List α} {x : α}
    (hx : x ∈ xs) : ∃ y, lastWith key xs (key x) = some y := by
  induction xs with
  | nil => simp at hx
  | cons z zs ih =>
    rw [lastWith]
    rcases hz : lastWith key zs (key x) with _ | y
    · rcases List.mem_cons.mp hx with hzx | hm
      · subst hzx
        exact ⟨x, by simp⟩
      · rcases ih hm with ⟨y, hy⟩
        rw [hy] at hz
        exact Option.noConfusion hz
    · exact ⟨y, rfl⟩

theorem lastWith_eq_none_iff {key : α → String} {xs : List α} {u : String} :
    lastWith key xs u = none ↔ ∀ x ∈ xs, key x ≠ u := by
  induction xs with
  | nil => simp [lastWith]
  | cons z zs ih =>
    rw [lastWith]
    rcases hz : lastWith key zs u with _ | y
    · by_cases hk : key z = u
      · simp only [hk, if_true]
        simp only [List.mem_cons]
        constructor
        · intro h; exact Option.noConfusion h
        · intro h; exact absurd hk (h z (Or.inl rfl))
      · simp only [hk, if_false, true_iff]
        intro x hx
        rcases List.mem_cons.mp hx with rfl | hm
        · exact hk
        · exact (ih.mp hz) x hm
    · simp only [List.mem_cons]
      constructor
      · intro h; exact Option.noConfusion h
      · intro h
        have := (lastWith_key hz)
        exact absurd this.1 (h y (Or.inr this.2))

/-- First-of-two option choice, used to state fold lookups without `match`. -/
def orElseO (a b : Option α) : Option α :=
  match a with
  | some x => some x
  | none => b

theorem orElseO_some (x : α) (b : Option α) : orElseO (some x) b = some x := rfl

theorem orElseO_none (b : Option α) : orElseO none b = b := rfl

theorem getVal_foldl_updDict (key : α → String) (val : α → β) (xs : List α)
    (m : List (String × β)) (u : String) :
    getVal (xs.foldl (fun acc x => updDict acc (key x) (val x)) m) u =
      orElseO ((lastWith key xs u).map val) (getVal m u) := by
  induction xs generalizing m with
  | nil => simp [lastWith, orElseO]
  | cons x xs ih =>
    rw [List.foldl_cons, ih, lastWith]
    rcases hx : lastWith key xs u with _ | y
    · by_cases hk : key x = u
      · subst hk
        simp [getVal_updDict_self, orElseO]
      · simp only [hk, if_false, Option.map_none, orElseO_none]
        exact getVal_updDict_ne m (key x) u (val x) (Ne.symm hk)
    · rfl

theorem keysOf_foldl_updDict_of_containsKey (key : α → String) (val : α → β)
    (xs : List α) (m : List (String × β))
    (h : ∀ x ∈ xs, containsKey m (key x) = true) :
    keysOf (xs.foldl (fun acc x => updDict acc (key x) (val x)) m) = keysOf m := by
  induction xs generalizing m with
  | nil => rfl
  | cons x xs ih =>
    rw [List.foldl_cons]
    rw [ih _ (fun y hy => containsKey_updDict_of m (key x) (key y) (val x)
      (h y (List.mem_cons_of_mem x hy)))]
    exact keysOf_updDict_of_containsKey m (key x) (val x) (h x (List.mem_cons_self x xs))

theorem nodup_keysOf_foldl_updDict (key : α → String) (val : α → β)
    (xs : List α) (m : List (String × β)) (h : (keysOf m).Nodup) :
    (keysOf (xs.foldl (fun acc x => updDict acc (key x) (val x)) m)).Nodup := by
  induction xs generalizing m with
  | nil => exact h
  | cons x xs ih =>
    rw [List.foldl_cons]
    exact ih _ (nodup_keysOf_updDict m (key x) (val x) h)

/-! Lemmas about the rolling event log. -/

theorem capLog_eq_drop (l : List LogEntry) :
    capLog l = l.drop (l.length - 1000) := by
  unfold capLog
  by_cases h : l.length > 1000
  · simp [h]
  · have : l.length - 1000 = 0 := Nat.sub_eq_zero_of_le (Nat.le_of_not_lt h)
    simp [h, this]

theorem capLog_of_le {l : List LogEntry} (h : l.length ≤ 1000) : capLog l = l := by
  rw [capLog_eq_drop, Nat.sub_eq_zero_of_le h, List.drop_zero]

theorem length_capLog (l : List LogEntry) :
    (capLog l).length = min l.length 1000 := by
  rw [capLog_eq_drop, List.length_drop]
  omega

theorem capLog_capLog_append (l l₂ : List LogEntry) :
    capLog (capLog l ++ l₂) = capLog (l ++ l₂) := by
  have h1 : capLog l ++ l₂ = (l ++ l₂).drop (l.length - 1000) := by
    rw [capLog_eq_drop l]
    exact (List.drop_append_of_le_length (by omega)).symm
  have h2 : l.length - 1000 + (((l ++ l₂).drop (l.length - 1000)).length - 1000)
      = (l ++ l₂).length - 1000 := by
    simp only [List.length_drop, List.length_append]
    omega
  rw [h1, capLog_eq_drop, capLog_eq_drop, List.drop_drop, h2]

/-! Frame lemmas: the dispatch handlers only touch the `devices` mapping. -/

theorem applyStates_fst_label (now : Nat) (ss : List SrcState) (dd : DeviceData) :
    (applyStates now dd ss).1.label = dd.label := by
  induction ss generalizing dd with
  | nil => rfl
  | cons s rest ih =>
    rw [applyStates]
    split
    · exact ih _
    · exact ih _

theorem handlePairs_fst_frame (now : Nat) (ps : List DeviceStatesPair)
    (data : ExplorerData) :
    (handlePairs now data ps).1.events_log = data.events_log ∧
    (handlePairs now data ps).1.gateways = data.gateways ∧
    (handlePairs now data ps).1.raw_api_responses = data.raw_api_responses ∧
    (handlePairs now data ps).1.last_full_refresh = data.last_full_refresh := by
  induction ps generalizing data with
  | nil => exact ⟨rfl, rfl, rfl, rfl⟩
  | cons p rest ih =>
    rw [handlePairs]
    rcases h : getVal data.devices p.device_url with _ | dd
    · exact ih data
    · exact ih _

theorem handleStateChange_fst_log (now : Nat) (event : Event) (data : ExplorerData) :
    (handleStateChange now event data).1.events_log = data.events_log := by
  unfold handleStateChange
  rcases event.device_states with _ | pairs
  · rfl
  · by_cases hp : pairs = []
    · simp [hp]
    · simp only [hp, if_false]
      exact (handlePairs_fst_frame now pairs data).1

theorem handleAvailabilityChange_log (event : Event) (b : Bool) (data : ExplorerData) :
    (handleAvailabilityChange event b data).events_log = data.events_log := by
  unfold handleAvailabilityChange
  rcases event.device_url with _ | url
  · rfl
  · by_cases hu : url = ""
    · simp [hu]
    · simp only [hu, if_false]
      rcases getVal data.devices url with _ | dd <;> rfl

theorem processEvent_count (now : Nat) (st : CoordState) (e : Event) :
    (processEvent now st e).1.event_count = st.event_count + 1 := by
  unfold processEvent
  rcases e.name <;> rfl

theorem processEvent_log (now : Nat) (st : CoordState) (e : Event) :
    (processEvent now st e).1.data.events_log =
      capLog (st.data.events_log ++ [mkLogEntry now (st.event_count + 1) e]) := by
  unfold processEvent
  rcases hn : e.name with _ | _ | _ | _ | _ | s
  · simp only []
    exact handleStateChange_fst_log now e _
  · simp only []
    exact handleAvailabilityChange_log e true _
  · simp only []
    exact handleAvailabilityChange_log e false _
  · rfl
  · rfl
  · rfl

theorem entriesFor_length (c : Nat) (evs : List (Nat × Event)) :
    (entriesFor c evs).length = evs.length := by
  induction evs generalizing c with
  | nil => rfl
  | cons te rest ih =>
    rcases te with ⟨t, e⟩
    simp [entriesFor, ih]

/-- Main invariant of the event loop: the counter advances by one per event and
the log is the capped concatenation of the per-event entries. -/
theorem runEvents_spec (evs : List (Nat × Event)) (st : CoordState)
    (h : st.data.events_log.length ≤ 1000) :
    (runEvents st evs).event_count = st.event_count + evs.length ∧
    (runEvents st evs).data.events_log =
      capLog (st.data.events_log ++ entriesFor st.event_count evs) := by
  induction evs generalizing st with
  | nil =>
    simp only [runEvents, entriesFor, List.append_nil, List.length_nil]
    exact ⟨rfl, (capLog_of_le h).symm⟩
  | cons te rest ih =>
    rcases te with ⟨t, e⟩
    rw [runEvents]
    have hlog := processEvent_log t st e
    have hcnt := processEvent_count t st e
    have hle : (processEvent t st e).1.data.events_log.length ≤ 1000 := by
      rw [hlog, length_capLog]
      omega
    rcases ih (processEvent t st e).1 hle with ⟨ih1, ih2⟩
    constructor
    · rw [ih1, hcnt]
      simp [List.length_cons]
      omega
    · rw [ih2, hcnt, hlog, capLog_capLog_append]
      simp [entriesFor, List.append_assoc]

theorem initCoord_events_log (now : Nat) (setup : SrcSetup) :
    (initCoord now setup).data.events_log = [] := rfl

theorem initCoord_event_count (now : Nat) (setup : SrcSetup) :
    (initCoord now setup).event_count = 0 := rfl

theorem entriesFor_map_eventNums (c : Nat) (evs : List (Nat × Event)) :
    (entriesFor c evs).map (·.event_number) = List.range' (c + 1) evs.length := by
  induction evs generalizing c with
  | nil => rfl
  | cons te rest ih =>
    rcases te with ⟨t, e⟩
    simp only [entriesFor, List.map_cons, List.length_cons, List.range'_succ, ih]
    rfl

theorem drop_range' (k : Nat) : ∀ (s n : Nat),
    (List.range' s n).drop k = List.range' (s + k) (n - k) := by
  induction k with
  | zero => intro s n; simp
  | succ k ih =>
    intro s n
    rcases n with _ | n
    · simp
    · rw [List.range'_succ, List.drop_succ_cons, ih (s + 1) n]
      congr 1 <;> omega

/-- Claim C1: starting from a freshly constructed coordinator, processing any
sequence of events one at a time appends exactly one log entry per event, the
log never holds more than 1000 entries, and it always equals the most recent
(at most 1000) entries in their original relative order, oldest evicted
first. -/
theorem claim_C1 (now : Nat) (setup : SrcSetup) (evs : List (Nat × Event)) :
    (entriesFor 0 evs).length = evs.length ∧
    (runEvents (initCoord now setup) evs).data.events_log =
      (entriesFor 0 evs).drop (evs.length - 1000) ∧
    (runEvents (initCoord now setup) evs).data.events_log.length
      = min evs.length 1000 := by
  have h0 := initCoord_events_log now setup
  have hlen : (initCoord now setup).data.events_log.length ≤ 1000 := by
    rw [h0]; simp
  rcases runEvents_spec evs _ hlen with ⟨_, h2⟩
  refine ⟨entriesFor_length 0 evs, ?_, ?_⟩
  · rw [h2, initCoord_event_count, h0, List.nil_append, capLog_eq_drop,
      entriesFor_length]
  · rw [h2, initCoord_event_count, h0, List.nil_append, length_capLog,
      entriesFor_length]

/-- Claim C10: the event counter advances by exactly one per processed event
and is never reset, so it equals the total number of events ever processed;
the event numbers in the log are exactly the most recent counter values, in
strictly increasing order, even after eviction by the 1000-entry cap. -/
theorem claim_C10 (now : Nat) (setup : SrcSetup) (evs : List (Nat × Event)) :
    (runEvents (initCoord now setup) evs).event_count = evs.length ∧
    ((runEvents (initCoord now setup) evs).data.events_log.map (·.event_number))
      = List.range' (evs.length - min evs.length 1000 + 1) (min evs.length 1000) ∧
    ((runEvents (initCoord now setup) evs).data.events_log.map
      (·.event_number)).Pairwise (· < ·) := by
  have h0 := initCoord_events_log now setup
  have hlen : (initCoord now setup).data.events_log.length ≤ 1000 := by
    rw [h0]; simp
  rcases runEvents_spec evs _ hlen with ⟨h1, h2⟩
  have hmap : (runEvents (initCoord now setup) evs).data.events_log.map
      (·.event_number)
      = List.range' (evs.length - min evs.length 1000 + 1) (min evs.length 1000) := by
    rw [h2, initCoord_event_count, h0, List.nil_append, capLog_eq_drop,
      entriesFor_length, List.map_drop, entriesFor_map_eventNums, drop_range']
    have e1 : 0 + 1 + (evs.length - 1000) = evs.length - min evs.length 1000 + 1 := by
      omega
    have e2 : evs.length - (evs.length - 1000) = min evs.length 1000 := by omega
    rw [e1, e2]
  refine ⟨by rw [h1, initCoord_event_count, Nat.zero_add], hmap, ?_⟩
  rw [hmap]
  exact List.pairwise_lt_range' _ _

/-! Characterization of the effect of event dispatch on the devices mapping. -/

/-- The devices mapping produced by the `_handle_state_change` pair loop. -/
def handlePairsDevices (now : Nat) (devs : List (String × DeviceData)) :
    List DeviceStatesPair → List (String × DeviceData)
  | [] => devs
  | p :: rest =>
    match getVal devs p.device_url with
    | none => handlePairsDevices now devs rest
    | some dd =>
      handlePairsDevices now (updDict devs p.device_url (applyStates now dd p.states).1) rest

/-- The devices mapping produced by `_handle_state_change`. -/
def stateChangeDevices (now : Nat) (e : Event)
    (devs : List (String × DeviceData)) : List (String × DeviceData) :=
  match e.device_states with
  | none => devs
  | some pairs => if pairs = [] then devs else handlePairsDevices now devs pairs

/-- The devices mapping produced by `_handle_availability_change`. -/
def availabilityDevices (e : Event) (b : Bool)
    (devs : List (String × DeviceData)) : List (String × DeviceData) :=
  match e.device_url with
  | none => devs
  | some url =>
    if url = "" then devs
    else
      match getVal devs url with
      | none => devs
      | some dd => updDict devs url { dd with available := b }

theorem handlePairs_fst_devices (now : Nat) (ps : List DeviceStatesPair)
    (data : ExplorerData) :
    (handlePairs now data ps).1.devices = handlePairsDevices now data.devices ps := by
  induction ps generalizing data with
  | nil => rfl
  | cons p rest ih =>
    rw [handlePairs, handlePairsDevices]
    rcases h : getVal data.devices p.device_url with _ | dd
    · exact ih data
    · exact ih _

theorem handleStateChange_fst_devices (now : Nat) (e : Event) (data : ExplorerData) :
    (handleStateChange now e data).1.devices = stateChangeDevices now e data.devices := by
  unfold handleStateChange stateChangeDevices
  rcases e.device_states with _ | pairs
  · rfl
  · by_cases hp : pairs = []
    · simp [hp]
    · simp only [hp, if_false]
      exact handlePairs_fst_devices now pairs data

theorem handleAvailabilityChange_devices (e : Event) (b : Bool) (data : ExplorerData) :
    (handleAvailabilityChange e b data).devices = availabilityDevices e b data.devices := by
  unfold handleAvailabilityChange availabilityDevices
  rcases e.device_url with _ | url
  · rfl
  · by_cases hu : url = ""
    · simp [hu]
    · simp only [hu, if_false]
      rcases getVal data.devices url with _ | dd <;> rfl

theorem processEvent_devices (now : Nat) (st : CoordState) (e : Event) :
    (processEvent now st e).1.data.devices =
      match e.name with
      | .deviceStateChanged => stateChangeDevices now e st.data.devices
      | .deviceAvailable => availabilityDevices e true st.data.devices
      | .deviceUnavailable => availabilityDevices e false st.data.devices
      | _ => st.data.devices := by
  unfold processEvent
  rcases hn : e.name with _ | _ | _ | _ | _ | s <;> simp only [hn]
  · exact handleStateChange_fst_devices now e _
  · exact handleAvailabilityChange_devices e _ _
  · exact handleAvailabilityChange_devices e _ _

theorem handlePairsDevices_unknown (now : Nat) (ps : List DeviceStatesPair)
    (devs : List (String × DeviceData))
    (h : ∀ p ∈ ps, getVal devs p.device_url = none) :
    handlePairsDevices now devs ps = devs := by
  induction ps with
  | nil => rfl
  | cons p rest ih =>
    rw [handlePairsDevices, h p (List.mem_cons_self p rest)]
    exact ih (fun q hq => h q (List.mem_cons_of_mem p hq))

theorem keysOf_handlePairsDevices (now : Nat) (ps : List DeviceStatesPair)
    (devs : List (String × DeviceData)) :
    keysOf (handlePairsDevices now devs ps) = keysOf devs := by
  induction ps generalizing devs with
  | nil => rfl
  | cons p rest ih =>
    rw [handlePairsDevices]
    rcases h : getVal devs p.device_url with _ | dd
    · exact ih devs
    · rw [ih _]
      exact keysOf_updDict_of_containsKey devs p.device_url _
        (containsKey_of_getVal_some h)

theorem keysOf_stateChangeDevices (now : Nat) (e : Event)
    (devs : List (String × DeviceData)) :
    keysOf (stateChangeDevices now e devs) = keysOf devs := by
  unfold stateChangeDevices
  rcases e.device_states with _ | pairs
  · rfl
  · by_cases hp : pairs = []
    · simp [hp]
    · simp only [hp, if_false]
      exact keysOf_handlePairsDevices now pairs devs

theorem keysOf_availabilityDevices (e : Event) (b : Bool)
    (devs : List (String × DeviceData)) :
    keysOf (availabilityDevices e b devs) = keysOf devs := by
  unfold availabilityDevices
  rcases e.device_url with _ | url
  · rfl
  · by_cases hu : url = ""
    · simp [hu]
    · simp only [hu, if_false]
      rcases h : getVal devs url with _ | dd
      · rfl
      · exact keysOf_updDict_of_containsKey devs url _ (containsKey_of_getVal_some h)

/-- The device identifiers referenced by an event, as consumed by the
dispatch handlers. -/
def eventDeviceUrls (e : Event) : List String :=
  match e.name with
  | .deviceStateChanged => (e.device_states.getD []).map (·.device_url)
  | .deviceAvailable => e.device_url.toList
  | .deviceUnavailable => e.device_url.toList
  | _ => []

/-- Claim C2: a state-changed or availability event none of whose referenced
device identifiers is a key of the snapshot leaves the devices mapping
entirely unchanged (the model is total, so no exception is possible), and no
event ever adds or removes a device key. -/
theorem claim_C2 (now : Nat) (st : CoordState) (e : Event) :
    ((∀ u ∈ eventDeviceUrls e, getVal st.data.devices u = none) →
      (processEvent now st e).1.data.devices = st.data.devices) ∧
    keysOf ((processEvent now st e).1.data.devices) = keysOf st.data.devices := by
  rw [processEvent_devices]
  rcases hn : e.name with _ | _ | _ | _ | _ | s <;> simp only [hn]
  case deviceStateChanged =>
    constructor
    · intro h
      simp only [eventDeviceUrls, hn] at h
      unfold stateChangeDevices
      rcases hd : e.device_states with _ | pairs
      · rfl
      · by_cases hp : pairs = []
        · simp [hp]
        · simp only [hp, if_false]
          refine handlePairsDevices_unknown now pairs st.data.devices ?_
          intro p hpm
          refine h p.device_url ?_
          rw [hd]
          simp only [Option.getD_some]
          exact List.mem_map_of_mem (fun q => q.device_url) hpm
    · exact keysOf_stateChangeDevices now e st.data.devices
  case deviceAvailable =>
    constructor
    · intro h
      simp only [eventDeviceUrls, hn] at h
      unfold availabilityDevices
      rcases hu : e.device_url with _ | url
      · rfl
      · by_cases he : url = ""
        · simp [he]
        · simp only [he, if_false]
          rw [h url (by simp [hu])]
    · exact keysOf_availabilityDevices e true st.data.devices
  case deviceUnavailable =>
    constructor
    · intro h
      simp only [eventDeviceUrls, hn] at h
      unfold availabilityDevices
      rcases hu : e.device_url with _ | url
      · rfl
      · by_cases he : url = ""
        · simp [he]
        · simp only [he, if_false]
          rw [h url (by simp [hu])]
    · exact keysOf_availabilityDevices e false st.data.devices
  case deviceCreated => simp
  case deviceUpdated => simp
  case otherEvent => simp

/-! Last-write-wins behaviour of sequential state-changed events (C3). -/

/-- A state-changed event carrying a single (device, single-state) pair. -/
def stateEvent (url nm : String) (v : PyVal) (r : String) : Event :=
  { name := .deviceStateChanged
    device_url := none
    device_states := some [⟨url, [⟨nm, v, r⟩]⟩]
    refl_fields := [] }

theorem applyStates_fst_cons (now : Nat) (dd : DeviceData) (s : SrcState)
    (rest : List SrcState) :
    (applyStates now dd (s :: rest)).1 =
      (applyStates now
        { dd with states := updDict dd.states s.name ⟨s.value, s.value.typeName, s.raw⟩
                  last_updated := now } rest).1 := by
  simp only [applyStates]
  split <;> rfl

theorem applyStates_single (now : Nat) (dd : DeviceData) (s : SrcState) :
    (applyStates now dd [s]).1 =
      { dd with states := updDict dd.states s.name ⟨s.value, s.value.typeName, s.raw⟩
                last_updated := now } := by
  rw [applyStates_fst_cons]
  rfl

theorem stateChangeDevices_single (now : Nat) (url nm : String) (v : PyVal)
    (r : String) (devs : List (String × DeviceData)) (dd : DeviceData)
    (h : getVal devs url = some dd) :
    stateChangeDevices now (stateEvent url nm v r) devs =
      updDict devs url
        { dd with states := updDict dd.states nm ⟨v, v.typeName, r⟩
                  last_updated := now } := by
  unfold stateChangeDevices stateEvent
  dsimp only []
  rw [if_neg (by simp)]
  unfold handlePairsDevices
  dsimp only []
  rw [h]
  dsimp only []
  rw [applyStates_single]
  rfl

theorem stateEvent_name (url nm : String) (v : PyVal) (r : String) :
    (stateEvent url nm v r).name = EventName.deviceStateChanged := rfl

theorem processEvent_stateEvent_devices (now : Nat) (st : CoordState)
    (url nm : String) (v : PyVal) (r : String) (dd : DeviceData)
    (h : getVal st.data.devices url = some dd) :
    ((processEvent now st (stateEvent url nm v r)).1).data.devices =
      updDict st.data.devices url
        { dd with states := updDict dd.states nm ⟨v, v.typeName, r⟩
                  last_updated := now } := by
  rw [processEvent_devices]
  exact stateChangeDevices_single now url nm v r st.data.devices dd h

/-- Claim C3: processing two sequential state-changed events for the same
device and state name stores the second event's value (last write wins), and
the device's last-updated timestamp is the processing time of the later
event. -/
theorem claim_C3 (t1 t2 : Nat) (st : CoordState) (url nm : String)
    (v1 v2 : PyVal) (r1 r2 : String) (dd : DeviceData)
    (h : getVal st.data.devices url = some dd) :
    ∃ dd',
      getVal (((processEvent t2 ((processEvent t1 st (stateEvent url nm v1 r1)).1)
        (stateEvent url nm v2 r2)).1).data.devices) url = some dd' ∧
      getVal dd'.states nm = some ⟨v2, v2.typeName, r2⟩ ∧
      dd'.last_updated = t2 := by
  have h1 := processEvent_stateEvent_devices t1 st url nm v1 r1 dd h
  set dd1 : DeviceData :=
    { dd with states := updDict dd.states nm ⟨v1, v1.typeName, r1⟩
              last_updated := t1 } with hdd1
  have h2 : getVal (((processEvent t1 st (stateEvent url nm v1 r1)).1).data.devices)
      url = some dd1 := by
    rw [h1]
    exact getVal_updDict_self st.data.devices url dd1
  have h3 := processEvent_stateEvent_devices t2
    ((processEvent t1 st (stateEvent url nm v1 r1)).1) url nm v2 r2 dd1 h2
  refine ⟨{ dd1 with states := updDict dd1.states nm ⟨v2, v2.typeName, r2⟩
                     last_updated := t2 }, ?_, ?_, rfl⟩
  · rw [h3]
    exact getVal_updDict_self _ url _
  · exact getVal_updDict_self dd1.states nm _

/-! Concrete fixtures used by witnesses and counterexamples. -/

/-- Sample normalized device record. -/
def exDevice : DeviceData :=
  { device_url := "d-1"
    label := "Boiler"
    widget := "w"
    ui_class := "u"
    controllable_name := ""
    protocol := ""
    device_type := ""
    available := true
    states := [("temp", ⟨.vInt 45, "int", "temp=45"⟩)]
    attributes := []
    commands := []
    state_definitions := []
    raw_data := []
    last_updated := 5 }

/-- Sample snapshot holding `exDevice` under its identifier. -/
def exData : ExplorerData :=
  { devices := [("d-1", exDevice)]
    gateways := []
    events_log := []
    raw_api_responses := []
    last_full_refresh := some 0 }

/-- Sample coordinator state. -/
def exState : CoordState := { data := exData, event_count := 0 }

/-- A state-changed event referencing an identifier absent from `exData`. -/
def exEventUnknown : Event :=
  { name := .deviceStateChanged
    device_url := none
    device_states := some [⟨"nope", [⟨"temp", .vInt 1, "temp=1"⟩]⟩]
    refl_fields := [] }

/-- Witness for C2 at a concrete input: an event for an unknown identifier
leaves the concrete snapshot's devices mapping unchanged. -/
theorem claim_C2_witness :
    (processEvent 9 exState exEventUnknown).1.data.devices
      = exState.data.devices :=
  (claim_C2 9 exState exEventUnknown).1 (by decide)

/-- Witness for C3 at a concrete input. -/
theorem claim_C3_witness :
    ∃ dd',
      getVal (((processEvent 8 ((processEvent 7 exState
        (stateEvent "d-1" "temp" (.vInt 46) "temp=46")).1)
        (stateEvent "d-1" "temp" (.vInt 47) "temp=47")).1).data.devices) "d-1"
        = some dd' ∧
      getVal dd'.states "temp" = some ⟨.vInt 47, "int", "temp=47"⟩ ∧
      dd'.last_updated = 8 :=
  claim_C3 7 8 exState "d-1" "temp" (.vInt 46) (.vInt 47) "temp=46" "temp=47"
    exDevice (by decide)

/-! Setup re-normalization: gateway duplication (C4), device-map behaviour
under a repeated identical resync (C5), and the resync trigger (C6). -/

/-- Sample gateway with one readable reflected field. -/
def exGateway : SrcGateway := ⟨[("id", .ok (.prim "gw-1"))]⟩

/-- Setup holding one gateway and no devices. -/
def exSetupG : SrcSetup := ⟨[exGateway], []⟩

/-- Sample client device with one state. -/
def exSrcDevice : SrcDevice :=
  { device_url := "d-1"
    label := "Boiler"
    widget := "w"
    ui_class := "u"
    controllable_name := none
    protocol := none
    device_type := none
    available := true
    states := some [⟨"temp", .vInt 45, "temp=45"⟩]
    attributes := none
    definition := none
    refl_fields := [] }

/-- Setup holding one device and no gateways. -/
def exSetupD : SrcSetup := ⟨[], [exSrcDevice]⟩

/-- Claim C4, evaluated at a concrete input: `_process_setup` appends the
reflected gateway records instead of replacing the list, so running it twice
on a one-gateway Setup leaves two identical records, not one. -/
theorem claim_C4_eval :
    (processSetup 1 exSetupG (processSetup 0 exSetupG emptyExplorerData)).gateways
        = [[("id", SerVal.prim "gw-1")], [("id", SerVal.prim "gw-1")]] ∧
      (processSetup 0 exSetupG emptyExplorerData).gateways
        = [[("id", SerVal.prim "gw-1")]] := by
  constructor <;> rfl

/-- Claim C6, evaluated at concrete inputs: the resync condition compares
`timedelta.seconds`, the elapsed time modulo 86400, with 300.  At 86500
elapsed seconds (more than 300) no resync is triggered, contradicting the
claim; within a day the threshold behaves as stated (strictly more than
300). -/
theorem claim_C6_eval :
    needsFullRefresh 86500 (some 0) = false ∧
    300 < 86500 - 0 ∧
    needsFullRefresh 300 (some 0) = false ∧
    needsFullRefresh 301 (some 0) = true ∧
    needsFullRefresh 5 none = true ∧
    (asyncUpdateData 86500 exState (.ok []) (.ok exSetupG)).1.data.last_full_refresh
      = some 0 := by
  refine ⟨rfl, by omega, rfl, rfl, rfl, rfl⟩

/-- Claim C5, refuted as stated at a concrete input: running the normalizer
twice over the identical Setup at clock readings 0 and 1 yields device
mappings that are not field-for-field equal (`last_updated` differs). -/
theorem claim_C5_counterexample :
    (processSetup 1 exSetupD (processSetup 0 exSetupD emptyExplorerData)).devices
      ≠ (processSetup 0 exSetupD emptyExplorerData).devices := by
  decide

theorem getVal_processSetup_devices (t : Nat) (setup : SrcSetup)
    (data : ExplorerData) (u : String) :
    getVal (processSetup t setup data).devices u =
      orElseO ((lastWith (fun d => d.device_url) setup.devices u).map
        (processDevice t)) (getVal data.devices u) := by
  show getVal (setup.devices.foldl
    (fun acc d => updDict acc d.device_url (processDevice t d)) data.devices) u = _
  exact getVal_foldl_updDict (fun d => d.device_url) (processDevice t)
    setup.devices data.devices u

theorem processDevice_time (t1 t2 : Nat) (d : SrcDevice) :
    processDevice t2 d = { processDevice t1 d with last_updated := t2 } := rfl

theorem containsKey_processSetup_of_mem (t : Nat) (setup : SrcSetup)
    (data : ExplorerData) {d : SrcDevice} (hd : d ∈ setup.devices) :
    containsKey (processSetup t setup data).devices d.device_url = true := by
  rcases lastWith_isSome_of_mem (fun q => q.device_url) hd with ⟨y, hy⟩
  have hv : getVal (processSetup t setup data).devices d.device_url
      = some (processDevice t y) := by
    rw [getVal_processSetup_devices t, hy]
    rfl
  exact containsKey_of_getVal_some hv

/-- Claim C5, amended: a second identical resync reproduces the first run's
device mapping except that every entry for a device of the Setup carries the
second run's timestamp; keys still equal the device identifiers and are
duplicate-free. -/
theorem claim_C5_amended (t1 t2 : Nat) (setup : SrcSetup) (data : ExplorerData)
    (hnd : (keysOf data.devices).Nodup)
    (hid : ∀ u dd, getVal data.devices u = some dd → dd.device_url = u) :
    keysOf (processSetup t2 setup (processSetup t1 setup data)).devices
      = keysOf (processSetup t1 setup data).devices ∧
    (keysOf (processSetup t2 setup (processSetup t1 setup data)).devices).Nodup ∧
    (∀ u dd', getVal (processSetup t2 setup (processSetup t1 setup data)).devices u
        = some dd' → dd'.device_url = u) ∧
    (∀ u, (∃ d ∈ setup.devices, d.device_url = u) →
      getVal (processSetup t2 setup (processSetup t1 setup data)).devices u
        = (getVal (processSetup t1 setup data).devices u).map
            (fun dd => { dd with last_updated := t2 })) ∧
    (∀ u, (∀ d ∈ setup.devices, d.device_url ≠ u) →
      getVal (processSetup t2 setup (processSetup t1 setup data)).devices u
        = getVal (processSetup t1 setup data).devices u) := by
  have hkeys : keysOf (processSetup t2 setup (processSetup t1 setup data)).devices
      = keysOf (processSetup t1 setup data).devices := by
    show keysOf (setup.devices.foldl
      (fun acc d => updDict acc d.device_url (processDevice t2 d))
      (processSetup t1 setup data).devices) = _
    exact keysOf_foldl_updDict_of_containsKey (fun d => d.device_url)
      (processDevice t2) setup.devices _
      (fun d hd => containsKey_processSetup_of_mem t1 setup data hd)
  have hnd1 : (keysOf (processSetup t1 setup data).devices).Nodup := by
    show (keysOf (setup.devices.foldl
      (fun acc d => updDict acc d.device_url (processDevice t1 d))
      data.devices)).Nodup
    exact nodup_keysOf_foldl_updDict (fun d => d.device_url) (processDevice t1)
      setup.devices data.devices hnd
  refine ⟨hkeys, hkeys ▸ hnd1, ?_, ?_, ?_⟩
  · intro u dd' h
    rw [getVal_processSetup_devices t2, getVal_processSetup_devices t1] at h
    rcases hl : lastWith (fun d => d.device_url) setup.devices u with _ | d
    · rw [hl] at h
      simp only [Option.map, orElseO] at h
      exact hid u dd' h
    · rw [hl] at h
      simp only [Option.map, orElseO] at h
      have hde : processDevice t2 d = dd' := by injection h
      rw [← hde]
      exact (lastWith_key hl).1
  · intro u hu
    rcases hu with ⟨d, hd, hdu⟩
    subst hdu
    rcases lastWith_isSome_of_mem (fun q => q.device_url) hd with ⟨y, hy⟩
    rw [getVal_processSetup_devices t2, getVal_processSetup_devices t1, hy]
    simp only [Option.map, orElseO]
    exact congrArg some (processDevice_time t1 t2 y)
  · intro u hu
    have hn : lastWith (fun d => d.device_url) setup.devices u = none :=
      lastWith_eq_none_iff.mpr hu
    rw [getVal_processSetup_devices t2, hn]
    simp only [Option.map, orElseO]

/-- Witness for the amended C5 at a concrete input. -/
theorem claim_C5_amended_witness :
    getVal (processSetup 1 exSetupD
        (processSetup 0 exSetupD emptyExplorerData)).devices "d-1"
      = (getVal (processSetup 0 exSetupD emptyExplorerData).devices "d-1").map
          (fun dd => { dd with last_updated := 1 }) :=
  (claim_C5_amended 0 1 exSetupD emptyExplorerData (by decide)
    (fun u dd h => by simp [getVal] at h)).2.2.2.1 "d-1"
    ⟨exSrcDevice, List.mem_cons_self _ _, rfl⟩

/-! Failure policy of the refresh cycle (C8). -/

/-- Claim C8: every exception during event fetching, event processing, or the
conditional setup fetch surfaces as the single generic `UpdateFailed` signal
wrapping its message, and the coordinator state returned is exactly the state
at the moment the exception occurred — the snapshot is retained, never
cleared. -/
theorem claim_C8 (now : Nat) (st : CoordState)
    (fetch : Except String (List FetchedEvent)) (sf : Except String SrcSetup) :
    (∀ m, fetch = Except.error m →
      asyncUpdateData now st fetch sf
        = (st, .error (.updateFailed ("Error communicating with API: " ++ m)))) ∧
    (∀ evs st2 m, fetch = Except.ok evs →
      processEventsAcc st evs = (st2, some m) →
      asyncUpdateData now st fetch sf
        = (st2, .error (.updateFailed ("Error communicating with API: " ++ m)))) ∧
    (∀ evs st2 m, fetch = Except.ok evs →
      processEventsAcc st evs = (st2, none) →
      needsFullRefresh now st2.data.last_full_refresh = true →
      sf = Except.error m →
      asyncUpdateData now st fetch sf
        = (st2, .error (.updateFailed ("Error communicating with API: " ++ m)))) ∧
    (∀ st' er, asyncUpdateData now st fetch sf = (st', Except.error er) →
      ∃ m, er = .updateFailed m) := by
  refine ⟨?_, ?_, ?_, ?_⟩
  · intro m hm
    subst hm
    rfl
  · intro evs st2 m hf hp
    subst hf
    unfold asyncUpdateData
    dsimp only []
    rw [hp]
  · intro evs st2 m hf hp hr hsf
    subst hf
    subst hsf
    unfold asyncUpdateData
    dsimp only []
    rw [hp]
    dsimp only []
    rw [hr]
    rfl
  · intro st' er _
    cases er
    exact ⟨_, rfl⟩

/-- Witness for C8 at a concrete input: a failing event fetch yields the
`UpdateFailed` signal and leaves the snapshot untouched. -/
theorem claim_C8_witness :
    asyncUpdateData 0 exState (Except.error "boom") (Except.ok exSetupG)
      = (exState,
          .error (.updateFailed ("Error communicating with API: " ++ "boom"))) :=
  (claim_C8 0 exState (Except.error "boom") (Except.ok exSetupG)).1 "boom" rfl

/-! Per-field error recovery of the reflection sweep (C9). -/

theorem extract_foldl_acc (fs : List ReflField) (acc : List (String × SerVal)) :
    fs.foldl (fun r f => r ++ reflEntry f) acc
      = acc ++ fs.foldl (fun r f => r ++ reflEntry f) [] := by
  induction fs generalizing acc with
  | nil => simp
  | cons f fs ih =>
    rw [List.foldl_cons, List.foldl_cons, List.nil_append, ih, ih (reflEntry f)]
    simp [List.append_assoc]

theorem extractAllAttributes_append (xs ys : List ReflField) :
    extractAllAttributes (xs ++ ys)
      = extractAllAttributes xs ++ extractAllAttributes ys := by
  unfold extractAllAttributes
  rw [List.foldl_append]
  exact extract_foldl_acc ys _

theorem extractAllAttributes_cons (f : ReflField) (fs : List ReflField) :
    extractAllAttributes (f :: fs) = reflEntry f ++ extractAllAttributes fs := by
  unfold extractAllAttributes
  rw [List.foldl_cons]
  simpa using extract_foldl_acc fs (reflEntry f)

theorem processDevice_refl_fields (now : Nat) (dev : SrcDevice)
    (X Y : List ReflField) :
    processDevice now { dev with refl_fields := X }
      = { processDevice now { dev with refl_fields := Y } with
          raw_data := extractAllAttributes X } := rfl

/-- Claim C9: an exception while reading or serializing one reflected field is
replaced by an error-marker entry for that field only — every other field is
extracted exactly as without the failure — and the failure does not abort the
normalization of the device (nor, the sweep being total, of the Setup). -/
theorem claim_C9 (now : Nat) (dev : SrcDevice) (pre post : List ReflField)
    (nm e : String) (h : startsWithUnderscore nm = false) :
    (extractAllAttributes (pre ++ (nm, Except.error e) :: post)
        = extractAllAttributes pre
          ++ (nm, SerVal.err ("<error: " ++ e ++ ">")) :: extractAllAttributes post) ∧
    processDevice now { dev with refl_fields := pre ++ (nm, Except.error e) :: post }
      = { processDevice now { dev with refl_fields := pre ++ post } with
          raw_data := extractAllAttributes pre
            ++ (nm, SerVal.err ("<error: " ++ e ++ ">")) :: extractAllAttributes post } := by
  have h1 : extractAllAttributes (pre ++ (nm, Except.error e) :: post)
      = extractAllAttributes pre
        ++ (nm, SerVal.err ("<error: " ++ e ++ ">")) :: extractAllAttributes post := by
    rw [extractAllAttributes_append, extractAllAttributes_cons]
    simp [reflEntry, h]
  refine ⟨h1, ?_⟩
  rw [processDevice_refl_fields now dev (pre ++ (nm, Except.error e) :: post)
    (pre ++ post), h1]

/-- Witness for C9 at a concrete input: a failing middle field yields its
error marker while both neighbours are extracted normally. -/
theorem claim_C9_witness :
    extractAllAttributes ([("ok1", Except.ok (ReflVal.prim "1"))]
        ++ ("bad", Except.error "boom") :: [("ok2", Except.ok (ReflVal.prim "2"))])
      = extractAllAttributes [("ok1", Except.ok (ReflVal.prim "1"))]
        ++ ("bad", SerVal.err ("<error: " ++ "boom" ++ ">"))
          :: extractAllAttributes [("ok2", Except.ok (ReflVal.prim "2"))] :=
  (claim_C9 0 exSrcDevice [("ok1", Except.ok (ReflVal.prim "1"))]
    [("ok2", Except.ok (ReflVal.prim "2"))] "bad" "boom" rfl).1

/-! Full characterization of `_handle_state_change` on one payload pair (C7). -/

theorem applyStates_fst_states (now : Nat) (ss : List SrcState) (dd : DeviceData) :
    (applyStates now dd ss).1.states =
      ss.foldl (fun acc s => updDict acc s.name ⟨s.value, s.value.typeName, s.raw⟩)
        dd.states := by
  induction ss generalizing dd with
  | nil => rfl
  | cons s rest ih =>
    rw [applyStates_fst_cons, List.foldl_cons]
    exact ih _

theorem applyStates_fst_last_updated (now : Nat) (ss : List SrcState)
    (dd : DeviceData) (h : ss ≠ []) :
    (applyStates now dd ss).1.last_updated = now := by
  induction ss generalizing dd with
  | nil => exact absurd rfl h
  | cons s rest ih =>
    rw [applyStates_fst_cons]
    by_cases hr : rest = []
    · subst hr
      rfl
    · exact ih _ hr

theorem applyStates_lines (now : Nat) (ss : List SrcState) (dd : DeviceData) :
    ∀ l ∈ (applyStates now dd ss).2, l.old_value ≠ l.new_value := by
  induction ss generalizing dd with
  | nil => intro l hl; simp [applyStates] at hl
  | cons s rest ih =>
    intro l hl
    simp only [applyStates] at hl
    split at hl
    · rcases List.mem_cons.mp hl with hl1 | hl2
      · subst hl1
        assumption
      · exact ih _ l hl2
    · exact ih _ l hl

theorem getVal_statesFold (ss : List SrcState) (m : List (String × StoredState))
    (nm : String) :
    getVal (ss.foldl
        (fun acc s => updDict acc s.name ⟨s.value, s.value.typeName, s.raw⟩) m) nm
      = orElseO ((lastWith (fun s => s.name) ss nm).map
          (fun s => (⟨s.value, s.value.typeName, s.raw⟩ : StoredState)))
        (getVal m nm) :=
  getVal_foldl_updDict (fun s => s.name)
    (fun s => (⟨s.value, s.value.typeName, s.raw⟩ : StoredState)) ss m nm

theorem handlePairsDevices_getVal_ne (now : Nat) (ps : List DeviceStatesPair)
    (devs : List (String × DeviceData)) (url : String)
    (h : ∀ p ∈ ps, p.device_url ≠ url) :
    getVal (handlePairsDevices now devs ps) url = getVal devs url := by
  induction ps generalizing devs with
  | nil => rfl
  | cons p rest ih =>
    rw [handlePairsDevices]
    rcases hq : getVal devs p.device_url with _ | dd2
    · exact ih devs (fun q hqm => h q (List.mem_cons_of_mem p hqm))
    · rw [ih _ (fun q hqm => h q (List.mem_cons_of_mem p hqm))]
      exact getVal_updDict_ne devs p.device_url url _
        (Ne.symm (h p (List.mem_cons_self p rest)))

theorem handlePairsDevices_at (now : Nat) (ps : List DeviceStatesPair)
    (devs : List (String × DeviceData)) (url : String) (ss : List SrcState)
    (dd : DeviceData)
    (hf : ps.filter (fun p => decide (p.device_url = url)) = [⟨url, ss⟩])
    (hd : getVal devs url = some dd) :
    getVal (handlePairsDevices now devs ps) url
      = some (applyStates now dd ss).1 := by
  revert hf hd
  induction ps generalizing devs with
  | nil =>
    intro hf hd
    simp at hf
  | cons p rest ih =>
    intro hf hd
    rw [handlePairsDevices]
    by_cases hpu : p.device_url = url
    · rw [List.filter_cons] at hf
      simp only [hpu, eq_self_iff_true, decide_True, if_true, List.cons.injEq] at hf
      obtain ⟨hp1, hrest⟩ := hf
      subst hp1
      dsimp only [] at hd ⊢
      rw [hd]
      dsimp only []
      have hnr : ∀ q ∈ rest, q.device_url ≠ url := by
        intro q hq hqe
        have : (fun p => decide (p.device_url = url)) q = true := by simp [hqe]
        have hmem : q ∈ rest.filter (fun p => decide (p.device_url = url)) :=
          List.mem_filter.mpr ⟨hq, this⟩
        rw [hrest] at hmem
        simp at hmem
      rw [handlePairsDevices_getVal_ne now rest _ url hnr]
      exact getVal_updDict_self devs url _
    · rw [List.filter_cons] at hf
      rw [if_neg (by simp [hpu])] at hf
      rcases hq : getVal devs p.device_url with _ | dd2
      · exact ih devs hf hd
      · refine ih _ hf ?_
        rw [getVal_updDict_ne devs p.device_url url _ (Ne.symm hpu)]
        exact hd

theorem handlePairs_lines (now : Nat) (ps : List DeviceStatesPair)
    (data : ExplorerData) :
    ∀ l ∈ (handlePairs now data ps).2, l.old_value ≠ l.new_value := by
  induction ps generalizing data with
  | nil =>
    intro l hl
    simp [handlePairs] at hl
  | cons p rest ih =>
    intro l hl
    rw [handlePairs] at hl
    rcases hq : getVal data.devices p.device_url with _ | dd
    · rw [hq] at hl
      exact ih data l hl
    · rw [hq] at hl
      dsimp only [] at hl
      rcases List.mem_append.mp hl with h1 | h2
      · exact applyStates_lines now p.states dd l h1
      · exact ih _ l h2

theorem handleStateChange_lines (now : Nat) (e : Event) (data : ExplorerData) :
    ∀ l ∈ (handleStateChange now e data).2, l.old_value ≠ l.new_value := by
  unfold handleStateChange
  rcases e.device_states with _ | pairs
  · intro l hl
    simp at hl
  · by_cases hp : pairs = []
    · intro l hl
      simp [hp] at hl
    · simp only [hp, if_false]
      exact handlePairs_lines now pairs data

theorem processEvent_lines (now : Nat) (st : CoordState) (e : Event) :
    ∀ l ∈ (processEvent now st e).2, l.old_value ≠ l.new_value := by
  unfold processEvent
  rcases hn : e.name with _ | _ | _ | _ | _ | s
  · exact handleStateChange_lines now e _
  all_goals intro l hl; simp at hl

/-- A state-changed event whose only pair carries an empty state list for a
known device. -/
def exEventEmptyStates : Event :=
  { name := .deviceStateChanged
    device_url := none
    device_states := some [⟨"d-1", ([] : List SrcState)⟩]
    refl_fields := [] }

/-- Claim C7, refuted as stated at a concrete input: for a known device whose
payload pair has an empty state list, the device's `last_updated` is not
touched (it is only assigned inside the per-state loop), contradicting
"updates the last-updated timestamp regardless". -/
theorem claim_C7_counterexample :
    getVal ((processEvent 9 exState exEventEmptyStates).1.data.devices) "d-1"
        = some exDevice ∧
      exDevice.last_updated ≠ 9 := by
  exact ⟨by decide, by decide⟩

/-- Claim C7, amended: for a state-changed event and a payload pair whose
identifier is known and appears in no other pair, processing overwrites each
named state with the pair's last occurrence of that name, leaves all other
states untouched, emits notable lines only for writes where the old value
differs from the new one, and updates the device's `last_updated` to the
processing time provided the pair's state list is non-empty (an empty list
leaves the timestamp unchanged). -/
theorem claim_C7_amended (now : Nat) (st : CoordState) (e : Event)
    (pairs : List DeviceStatesPair) (url : String) (ss : List SrcState)
    (dd : DeviceData)
    (hn : e.name = .deviceStateChanged)
    (hds : e.device_states = some pairs)
    (hf : pairs.filter (fun p => decide (p.device_url = url)) = [⟨url, ss⟩])
    (hd : getVal st.data.devices url = some dd) :
    ∃ dd',
      getVal ((processEvent now st e).1.data.devices) url = some dd' ∧
      (∀ nm, getVal dd'.states nm
        = orElseO ((lastWith (fun s => s.name) ss nm).map
            (fun s => (⟨s.value, s.value.typeName, s.raw⟩ : StoredState)))
          (getVal dd.states nm)) ∧
      (ss ≠ [] → dd'.last_updated = now) ∧
      (∀ l ∈ (processEvent now st e).2, l.old_value ≠ l.new_value) := by
  have hne : pairs ≠ [] := by
    intro h0
    rw [h0] at hf
    simp at hf
  have hdevs : (processEvent now st e).1.data.devices
      = handlePairsDevices now st.data.devices pairs := by
    rw [processEvent_devices]
    simp only [hn]
    unfold stateChangeDevices
    rw [hds]
    dsimp only []
    rw [if_neg hne]
  refine ⟨(applyStates now dd ss).1, ?_, ?_, ?_, ?_⟩
  · rw [hdevs]
    exact handlePairsDevices_at now pairs st.data.devices url ss dd hf hd
  · intro nm
    rw [applyStates_fst_states, getVal_statesFold]
  · exact applyStates_fst_last_updated now ss dd
  · exact processEvent_lines now st e

/-- A state-changed event setting `temp` to 46 on the known device. -/
def exEventTemp : Event :=
  { name := .deviceStateChanged
    device_url := none
    device_states := some [⟨"d-1", [⟨"temp", .vInt 46, "temp=46"⟩]⟩]
    refl_fields := [] }

/-- Witness for the amended C7 at a concrete input. -/
theorem claim_C7_amended_witness :
    ∃ dd',
      getVal ((processEvent 9 exState exEventTemp).1.data.devices) "d-1"
        = some dd' ∧
      (∀ nm, getVal dd'.states nm
        = orElseO ((lastWith (fun s => s.name)
              ([⟨"temp", PyVal.vInt 46, "temp=46"⟩] : List SrcState) nm).map
            (fun s => (⟨s.value, s.value.typeName, s.raw⟩ : StoredState)))
          (getVal exDevice.states nm)) ∧
      ([⟨"temp", PyVal.vInt 46, "temp=46"⟩] ≠ ([] : List SrcState) →
        dd'.last_updated = 9) ∧
      (∀ l ∈ (processEvent 9 exState exEventTemp).2,
        l.old_value ≠ l.new_value) :=
  claim_C7_amended 9 exState exEventTemp
    [⟨"d-1", [⟨"temp", .vInt 46, "temp=46"⟩]⟩] "d-1"
    [⟨"temp", .vInt 46, "temp=46"⟩] exDevice rfl rfl (by decide) (by decide)

end AtlanticExplorer

